import Mathlib

/-
Verification of the recovery pipeline in lightweight_pptx_recovery.py.

The Python source is shallowly embedded: Python `str` values are modelled as
`List Char`, byte buffers as `List Nat`, dicts with integer keys as
key-ascending association lists `List (Nat × Slide)`.  Character predicates
(`isupper`, `isdigit`, whitespace) are modelled on the ASCII range, which is
the range exercised by the pipeline's own generated text and by the concrete
inputs considered here.  Python operations that can raise are modelled with
`Option`.
-/

set_option maxRecDepth 4000

namespace PptxRecovery

/-! ## Python string primitives -/

/-- Python whitespace for `str.strip` / `str.split` / regex `\s` (ASCII range). -/
def isPySpace (c : Char) : Bool :=
  c = ' ' ∨ c = '\t' ∨ c = '\n' ∨ c = '\r' ∨ c = '\x0b' ∨ c = '\x0c'

/-- `str.strip()`. -/
def pyStrip (l : List Char) : List Char :=
  ((l.dropWhile isPySpace).reverse.dropWhile isPySpace).reverse

/-- `str.rstrip()`. -/
def pyRStrip (l : List Char) : List Char :=
  (l.reverse.dropWhile isPySpace).reverse

/-- `s.endswith(c)` for a single character `c`. -/
def endsWithChar (l : List Char) (c : Char) : Bool :=
  l.getLast? = some c

/-- A character with an ASCII case (letter), as used by Python `str.isupper`. -/
def isCased (c : Char) : Bool := c.isUpper || c.isLower

/-- Python `str.isupper()`: at least one cased character and every cased
character is uppercase. -/
def pyIsUpper (l : List Char) : Bool :=
  l.any isCased && l.all (fun c => !isCased c || c.isUpper)

/-- Worker for `str.split()`: accumulate the current word (reversed). -/
def pySplitWSAux : List Char → List Char → List (List Char)
  | [], acc => if acc = [] then [] else [acc.reverse]
  | c :: rest, acc =>
    if isPySpace c then
      if acc = [] then pySplitWSAux rest []
      else acc.reverse :: pySplitWSAux rest []
    else pySplitWSAux rest (c :: acc)

/-- Python `str.split()` with no argument: split on whitespace runs, dropping
empty words. -/
def pySplitWS (l : List Char) : List (List Char) := pySplitWSAux l []

/-! ## is_likely_title (source lines 201-228) -/

/-- `re.match(r'^Slide\s+\d+', text, re.IGNORECASE)` viewed as a Boolean test:
the text starts with "slide" case-insensitively, then one or more whitespace
characters, then a digit. -/
def matchesSlideNum (l : List Char) : Bool :=
  match l with
  | a :: b :: c :: d :: e :: rest =>
    if a.toLower = 's' ∧ b.toLower = 'l' ∧ c.toLower = 'i' ∧ d.toLower = 'd' ∧
        e.toLower = 'e' then
      let ws := rest.takeWhile isPySpace
      let after := rest.drop ws.length
      !ws.isEmpty &&
        (match after with
         | f :: _ => f.isDigit
         | [] => false)
    else false
  | _ => false

/-- `is_likely_title` from the source.  The 70% title-case ratio
`uppercase_words / len(words) >= 0.7` is modelled as the exact rational
comparison `7 * len(words) <= 10 * uppercase_words`. -/
def is_likely_title (text : List Char) : Bool :=
  if matchesSlideNum text then true
  else if text.length < 60 then
    if endsWithChar (pyRStrip text) ':' then true
    else if pyIsUpper text then true
    else
      let words := pySplitWS text
      if 2 ≤ words.length then
        let uppercaseWords :=
          (words.filter (fun w => !w.isEmpty && (w.headD ' ').isUpper)).length
        decide (7 * words.length ≤ 10 * uppercaseWords)
      else false
  else false

/-! ## organize_text_into_slides (source lines 230-327) -/

/-- In-memory slide group: title, body fragments, image filenames. -/
structure Slide where
  title : List Char
  content : List (List Char)
  images : List (List Char)
deriving DecidableEq

/-- Filtering pass of `organize_text_into_slides` (lines 236-249): drop
paragraphs whose stripped length is under 5 and exact duplicates, carrying
the `seen` set. -/
def filterParas : List (List Char) → List (List Char) → List (List Char)
  | [], _ => []
  | p :: rest, seen =>
    if (pyStrip p).length < 5 then filterParas rest seen
    else if p ∈ seen then filterParas rest seen
    else p :: filterParas rest (p :: seen)

/-- `paragraphs[i]` (only used at valid indices). -/
def para (paras : List (List Char)) (i : Nat) : List Char := paras.getD i []

/-- First title-detection pass (lines 259-262): likely titles, plus fragments
directly following a fragment shorter than 3 characters. -/
def titleIndicesBase (paras : List (List Char)) : List Nat :=
  (List.range paras.length).filter (fun i =>
    is_likely_title (para paras i) ||
      (decide (0 < i) && decide ((para paras i).length < 50) &&
        decide ((para paras (i - 1)).length < 3)))

/-- Widening pass (lines 264-270): when fewer than `max_slides // 2` boundaries
were found, also mark fragments whose stripped form ends in `:` or `.`. -/
def widenIndices (paras : List (List Char)) (t1 : List Nat) (maxS : Nat) :
    List Nat :=
  if t1.length < maxS / 2 then
    t1 ++ (List.range paras.length).filter (fun i =>
      (endsWithChar (pyStrip (para paras i)) ':' ||
        endsWithChar (pyStrip (para paras i)) '.') && decide (i ∉ t1))
  else t1

/-- Boundary indices after widening and the final `title_indices.sort()`. -/
def titleIndicesOf (paras : List (List Char)) (maxS : Nat) : List Nat :=
  List.insertionSort (· ≤ ·) (widenIndices paras (titleIndicesBase paras) maxS)

/-- The synthesized placeholder title `f"Slide {n}"`. -/
def slideLabel (n : Nat) : List Char := "Slide ".toList ++ (toString n).toList

/-- `max(1, min(8, len(paragraphs) // max(1, min(max_slides, 15))))`
(line 278). -/
def fallbackChunkSize (nParas maxS : Nat) : Nat :=
  max 1 (min 8 (nParas / max 1 (min maxS 15)))

/-- Chunking `range(0, len, pps)` of the fallback path, with a fuel argument
bounding the recursion by the list length (`pps ≥ 1` in all uses). -/
def chunksOfAux (pps : Nat) : Nat → List (List Char) → List (List (List Char))
  | 0, _ => []
  | _, [] => []
  | fuel + 1, ps => ps.take pps :: chunksOfAux pps fuel (ps.drop pps)

/-- Split a paragraph list into consecutive chunks of `pps` paragraphs. -/
def chunksOf (pps : Nat) (l : List (List Char)) : List (List (List Char)) :=
  chunksOfAux pps l.length l

/-- `title = slide_paras[0] if slide_paras and len(slide_paras[0]) < 60 else
f"Slide {current_slide}"` (line 287). -/
def chunkTitle (cur : Nat) (chunk : List (List Char)) : List Char :=
  if chunk ≠ [] ∧ (chunk.headD []).length < 60 then chunk.headD []
  else slideLabel cur

/-- `content = slide_paras[1:] if slide_paras[0] == title else slide_paras`
(line 288). -/
def chunkContent (cur : Nat) (chunk : List (List Char)) : List (List Char) :=
  if chunk.headD [] = chunkTitle cur chunk then chunk.tail else chunk

/-- Fallback (fixed-size-chunk) slide construction (lines 280-299).  Per chunk:
the first paragraph becomes the title when it is under 60 characters, else the
synthesized `Slide <n>` label; the body is the remainder when the first
paragraph was taken as title; chunks with empty body under a synthesized title
are skipped without consuming a slide number. -/
def fallbackBuild : Nat → List (List (List Char)) → List (Nat × Slide)
  | _, [] => []
  | cur, chunk :: rest =>
    if chunkContent cur chunk = [] ∧ chunkTitle cur chunk = slideLabel cur then
      fallbackBuild cur rest
    else
      (cur, ⟨chunkTitle cur chunk, chunkContent cur chunk, []⟩) ::
        fallbackBuild (cur + 1) rest

/-- `content = paragraphs[start_idx+1:end_idx]` where `end_idx` is the next
boundary index, or the paragraph count for the last boundary (lines 303-307). -/
def primaryContent (paras : List (List Char)) (s : Nat) (rest : List Nat) :
    List (List Char) :=
  (paras.drop (s + 1)).take (rest.headD paras.length - (s + 1))

/-- Primary (title-boundary) slide construction (lines 301-318).  Each boundary
index starts a group whose body runs up to the next boundary; groups with empty
body are skipped without consuming a slide number. -/
def primaryBuild (paras : List (List Char)) : Nat → List Nat → List (Nat × Slide)
  | _, [] => []
  | cur, s :: rest =>
    if primaryContent paras s rest = [] then primaryBuild paras cur rest
    else
      (cur, ⟨para paras s, primaryContent paras s rest, []⟩) ::
        primaryBuild paras (cur + 1) rest

/-- Path selection of the segmenter (line 276): fallback when fewer than 5
boundaries exist. -/
def buildStage (paras : List (List Char)) (maxS : Nat) : List (Nat × Slide) :=
  if titleIndicesOf paras maxS = [] ∨ (titleIndicesOf paras maxS).length < 5 then
    fallbackBuild 1 (chunksOf (fallbackChunkSize paras.length maxS) paras)
  else primaryBuild paras 1 (titleIndicesOf paras maxS)

/-- Final cap (lines 321-324): when more than `max_slides` groups exist, keep
the entries of the first `max_slides` sorted keys, in sorted-key order. -/
def capSlides (m : List (Nat × Slide)) (maxS : Nat) : List (Nat × Slide) :=
  if maxS < m.length then
    ((List.insertionSort (· ≤ ·) (m.map Prod.fst)).take maxS).filterMap
      (fun k => (List.lookup k m).map (fun s => (k, s)))
  else m

/-- `organize_text_into_slides(paragraphs, max_slides)`: the slide dict is
modelled as a key-ascending association list. -/
def organize_text_into_slides (paragraphs : List (List Char)) (max_slides : Nat) :
    List (Nat × Slide) :=
  let paras := (filterParas paragraphs []).take (max_slides * 8)
  capSlides (buildStage paras max_slides) max_slides

/-! ## load_extracted_text_file (source lines 173-199) -/

/-- Index of the last newline in a character list, if any. -/
def lastIdxNL (l : List Char) : Option Nat :=
  match l.reverse.findIdx? (· = '\n') with
  | none => none
  | some j => some (l.length - 1 - j)

/-- Scanner for `re.split(r'\n\s*\n', content)`.  At each newline, the greedy
separator consumes the following whitespace run up to and including the last
newline inside it, when one exists; otherwise scanning continues.  `seg` holds
the current segment reversed; the fuel argument (always at least the input
length plus one, and every step consumes at least one character) keeps the
recursion structural. -/
def splitBlankAux : Nat → List Char → List Char → List (List Char)
  | _, seg, [] => [seg.reverse]
  | 0, seg, rest => [seg.reverse ++ rest]
  | fuel + 1, seg, c :: rest =>
    if c = '\n' then
      match lastIdxNL (rest.takeWhile isPySpace) with
      | some k => seg.reverse :: splitBlankAux fuel [] (rest.drop (k + 1))
      | none => splitBlankAux fuel (c :: seg) rest
    else splitBlankAux fuel (c :: seg) rest

/-- `re.split(r'\n\s*\n', content)`. -/
def splitBlankLines (content : List Char) : List (List Char) :=
  splitBlankAux (content.length + 1) [] content

/-- `load_extracted_text_file`: split on blank-line boundaries, strip each
paragraph, drop empty ones (lines 192-196). -/
def load_extracted_text_file (content : List Char) : List (List Char) :=
  ((splitBlankLines content).map pyStrip).filter (fun p => p ≠ [])

/-! ## distribute_images (source lines 329-350) -/

/-- The filename `f"image_{k}.png"` assigned by the distributor. -/
def imageName (k : Nat) : List Char :=
  "image_".toList ++ (toString k).toList ++ ".png".toList

/-- `slides_content[k]['images'].append(name)`. -/
def appendImage (m : List (Nat × Slide)) (k : Nat) (name : List Char) :
    List (Nat × Slide) :=
  m.map (fun p =>
    if p.1 = k then (p.1, ⟨p.2.title, p.2.content, p.2.images ++ [name]⟩) else p)

/-- `sorted(slides_content.keys())`. -/
def sortedKeys (m : List (Nat × Slide)) : List Nat :=
  List.insertionSort (· ≤ ·) (m.map Prod.fst)

/-- The distribution loop `for i in range(image_count)` (lines 337-348):
image `i+1` is appended to the slide at sorted-key index `i % len(keys)`. -/
def distributeAux (ns : List Nat) (count : Nat) (m : List (Nat × Slide)) :
    List (Nat × Slide) :=
  (List.range count).foldl
    (fun acc i => appendImage acc (ns.getD (i % ns.length) 0) (imageName (i + 1)))
    m

/-- `distribute_images(slides_content, image_count)`.  When the slide dict is
empty and at least one image exists, the first loop iteration evaluates
`i % 0`, which raises `ZeroDivisionError` in Python; this is modelled as
`none`. -/
def distribute_images (m : List (Nat × Slide)) (count : Nat) :
    Option (List (Nat × Slide)) :=
  if count ≠ 0 ∧ m.length = 0 then none
  else some (distributeAux (sortedKeys m) count m)

/-- Characterization of the distributor used by the amended claim: the image
filenames that land on the slide at sorted index `j` out of `n`, namely
`image_<i+1>.png` for every loop index `i < c` with `i % n = j` (equivalently:
image `k = i+1` goes to index `(k-1) % n`). -/
def imagesFor (c n j : Nat) : List (List Char) :=
  ((List.range c).filter (fun i => i % n = j)).map (fun i => imageName (i + 1))

/-- The expected effect of `distribute_images` on the dict entry at index
`j`. -/
def updSlide (c n j : Nat) (p : Nat × Slide) : Nat × Slide :=
  (p.1, ⟨p.2.title, p.2.content, p.2.images ++ imagesFor c n j⟩)

/-! ## create_placeholder_slide (source lines 352-502) -/

/-- Replacement text for `&`. -/
def ampEsc : List Char := "&amp;".toList

/-- Replacement text for `<`. -/
def ltEsc : List Char := "&lt;".toList

/-- Replacement text for `>`. -/
def gtEsc : List Char := "&gt;".toList

/-- Single-character `str.replace('&', '&amp;')` step. -/
def repAmp (c : Char) : List Char := if c = '&' then ampEsc else [c]

/-- Single-character `str.replace('<', '&lt;')` step. -/
def repLt (c : Char) : List Char := if c = '<' then ltEsc else [c]

/-- Single-character `str.replace('>', '&gt;')` step. -/
def repGt (c : Char) : List Char := if c = '>' then gtEsc else [c]

/-- `text.replace('&','&amp;').replace('<','&lt;').replace('>','&gt;')`
(lines 355 and 411); a `replace` whose pattern is a single character is the
character-wise substitution `List.flatMap`. -/
def escapeText (s : List Char) : List Char :=
  ((s.flatMap repAmp).flatMap repLt).flatMap repGt

/-- The ellipsis appended on truncation. -/
def ellipsis : List Char := "...".toList

/-- Title sanitization (lines 354-357): escape, then truncate the escaped text
to `[:97] + '...'` when its length exceeds 100. -/
def sanitizeTitle (t : List Char) : List Char :=
  if 100 < (escapeText t).length then (escapeText t).take 97 ++ ellipsis
  else escapeText t

/-- Body-fragment sanitization (lines 410-413): escape, then truncate the
escaped text to `[:997] + '...'` when its length exceeds 1000. -/
def sanitizeBody (t : List Char) : List Char :=
  if 1000 < (escapeText t).length then (escapeText t).take 997 ++ ellipsis
  else escapeText t

/-- The claim's escaping rule stated character-wise, for comparison with the
source's chain of `replace` calls: `&` becomes `&amp;`, `<` becomes `&lt;`,
`>` becomes `&gt;`, all other characters stay. -/
def specEscape (s : List Char) : List Char :=
  s.flatMap (fun c =>
    if c = '&' then ampEsc
    else if c = '<' then ltEsc
    else if c = '>' then gtEsc
    else [c])

/-- The relationship IDs referenced by `<a:blip r:embed="rId{rid}"/>` in the
generated slide part: `rid = i + 1` for `i, _ in enumerate(images[:max_images])`
with `max_images = min(4, len(images))` (lines 441-471). -/
def slidePicEmbeds (images : List (List Char)) : List Nat :=
  ((images.take (min 4 images.length)).enum).map (fun p => p.1 + 1)

/-- The `<Relationship Id="rId{rid}" ... Target="../media/{img_file}"/>`
entries of the slide's relationship part (lines 487-496), as
(id, target filename) pairs. -/
def slideRelEntries (images : List (List Char)) : List (Nat × List Char) :=
  ((images.take (min 4 images.length)).enum).map (fun p => (p.1 + 1, p.2))

/-! ## create_pptx_structure (source lines 504-631) -/

/-- Whether a media file was copied from the media store or synthesized by
`create_placeholder_image`. -/
inductive MediaOrigin
  | copied
  | placeholder
deriving DecidableEq

/-- Title of the filler slide for a missing index (line 590). -/
def recoveredLabel (n : Nat) : List Char :=
  "Recovered Slide ".toList ++ (toString n).toList

/-- Slide used for number `n` of a package: the stored group when present,
otherwise the empty filler slide (lines 587-597). -/
def slideFor (sc : List (Nat × Slide)) (n : Nat) : Slide :=
  match List.lookup n sc with
  | some s => s
  | none => ⟨recoveredLabel n, [], []⟩

/-- The slides written into one package, for `slide_num in
range(start_slide, end_slide + 1)`. -/
def builtSlides (sc : List (Nat × Slide)) (s e : Nat) : List Slide :=
  (List.range' s (e + 1 - s)).map (slideFor sc)

/-- `all_used_images` (lines 582-616): every image filename of every written
slide, untruncated. -/
def allUsedImages (sc : List (Nat × Slide)) (s e : Nat) : List (List Char) :=
  (builtSlides sc s e).foldl (fun acc sl => acc ++ sl.images) []

/-- The media copy loop (lines 618-628): for every distinct used filename,
copy it from the media store when present, otherwise write a generated
placeholder image under the same filename. -/
def packageMedia (store used : List (List Char)) : List (List Char × MediaOrigin) :=
  used.dedup.map (fun f =>
    (f, if f ∈ store then MediaOrigin.copied else MediaOrigin.placeholder))

/-- The `ppt/media` contents of one assembled package. -/
def assembledMedia (store : List (List Char)) (sc : List (Nat × Slide))
    (s e : Nat) : List (List Char × MediaOrigin) :=
  packageMedia store (allUsedImages sc s e)

/-! ## extract_images_from_binary (source lines 54-124) -/

/-- Whether `pat` is an initial segment of `l`. -/
def startsWith : List Nat → List Nat → Bool
  | [], _ => true
  | _ :: _, [] => false
  | a :: as, b :: bs => a = b && startsWith as bs

/-- Worker for `bytes.find(pat, p)`: least position at least `p` where `pat`
occurs, scanning with explicit fuel. -/
def findFromAux (pat data : List Nat) : Nat → Nat → Option Nat
  | 0, _ => none
  | fuel + 1, p =>
    if startsWith pat (data.drop p) then some p
    else findFromAux pat data fuel (p + 1)

/-- `data.find(pat, start)`; `none` models Python's `-1`. -/
def findFrom (pat data : List Nat) (start : Nat) : Option Nat :=
  findFromAux pat data (data.length + 1 - start) start

/-- The 8-byte PNG signature. -/
def pngHeader : List Nat := [0x89, 0x50, 0x4E, 0x47, 0x0D, 0x0A, 0x1A, 0x0A]

/-- The PNG `IEND` chunk tail including its CRC bytes. -/
def iendMarker : List Nat := [0x49, 0x45, 0x4E, 0x44, 0xAE, 0x42, 0x60, 0x82]

/-- The JPEG start-of-image signature. -/
def jpgHeader : List Nat := [0xFF, 0xD8, 0xFF]

/-- The JPEG end-of-image marker. -/
def eoiMarker : List Nat := [0xFF, 0xD9]

/-- One signature-scan loop of `extract_images_from_binary` (lines 70-92 for
PNG, 99-121 for JPEG): find the next header at or after `pos`; search for the
end marker from the header position; when found, the candidate byte range is
`[s, e + len(marker))`; either way the next iteration restarts the header
search at `pos = s + 1`.  Fuel bounds the loop by the buffer length. -/
def scanAux (hdr mk data : List Nat) : Nat → Nat → List (Nat × Nat)
  | 0, _ => []
  | fuel + 1, pos =>
    match findFrom hdr data pos with
    | none => []
    | some s =>
      match findFrom mk data s with
      | none => scanAux hdr mk data fuel (s + 1)
      | some e => (s, e + mk.length) :: scanAux hdr mk data fuel (s + 1)

/-- Candidate PNG byte ranges produced by the carver's scan. -/
def pngScan (data : List Nat) : List (Nat × Nat) :=
  scanAux pngHeader iendMarker data (data.length + 1) 0

/-- Candidate JPEG byte ranges produced by the carver's scan. -/
def jpgScan (data : List Nat) : List (Nat × Nat) :=
  scanAux jpgHeader eoiMarker data (data.length + 1) 0

/-- Adjacent candidates have disjoint byte ranges (each ends no later than the
next begins). -/
def succNonOverlap : List (Nat × Nat) → Bool
  | a :: b :: rest => decide (a.2 ≤ b.1) && succNonOverlap (b :: rest)
  | _ => true

/-! ## Splitter arithmetic of main (source lines 716-751) -/

/-- `(a + b - 1) // b`, the ceiling-division idiom of the source. -/
def ceilDiv (a b : Nat) : Nat := (a + b - 1) / b

/-- The splitter's computation (lines 717-722): returns
`(slides_per_file, num_files)`. -/
def splitPlan (T S F : Nat) : Nat × Nat :=
  let sp0 := min S T
  let df := min F (ceilDiv T sp0)
  let sp := ceilDiv T df
  (sp, ceilDiv T sp)

/-- `slide_numbers[i*sp : min((i+1)*sp, total)]` for `i in range(n)`
(line 730). -/
def filePartition (l : List Nat) (sp n : Nat) : List (List Nat) :=
  (List.range n).map (fun i =>
    (l.drop (i * sp)).take (min ((i + 1) * sp) l.length - i * sp))

/-- The per-archive slide counts as pure arithmetic. -/
def chunkSizes (T sp n : Nat) : List Nat :=
  (List.range n).map (fun i => min ((i + 1) * sp) T - i * sp)

/-! ## Batch loop and cleanup of main (source lines 687-770) -/

/-- Result of building and serializing one archive: `ok`, `retFalse` models
`create_pptx` returning `False` (the only failure its interface reports,
handled by `continue` at lines 755-757), `raises` models an uncaught exception
from build or serialization (e.g. an `OSError` inside `zipfile`). -/
inductive SerOutcome
  | ok
  | retFalse
  | raises
deriving DecidableEq

/-- Exit mode of the batch loop. -/
inductive ExitKind
  | normal
  | exception
deriving DecidableEq

/-- Observable outcome of `main`'s archive loop plus its `finally` block. -/
structure BatchResult where
  attempted : List Nat
  recorded : List Nat
  exit : ExitKind
  finallyRan : Bool
  dirRemoved : Bool
deriving DecidableEq

/-- The archive loop (lines 729-761) over part indices: a `retFalse` part is
recorded (`logger.error`) and skipped via `continue`; an exception aborts the
loop immediately. Returns (attempted parts, recorded failures, raised?). -/
def runParts (outcome : Nat → SerOutcome) : List Nat → List Nat × List Nat × Bool
  | [] => ([], [], false)
  | i :: rest =>
    match outcome i with
    | SerOutcome.raises => ([i], [], true)
    | SerOutcome.retFalse =>
      let r := runParts outcome rest
      (i :: r.1, i :: r.2.1, r.2.2)
    | SerOutcome.ok =>
      let r := runParts outcome rest
      (i :: r.1, r.2.1, r.2.2)

/-- The whole batch under `try ... finally` (lines 687-770): the `finally`
block always runs, and it removes the overall working directory exactly when a
temporary directory was in use (`not args.extract_dir`, line 769). -/
def runBatch (n : Nat) (outcome : Nat → SerOutcome) (usedTempDir : Bool) :
    BatchResult :=
  let r := runParts outcome (List.range n)
  { attempted := r.1
    recorded := r.2.1
    exit := if r.2.2 then ExitKind.exception else ExitKind.normal
    finallyRan := true
    dirRemoved := usedTempDir }

/-! ## Pipeline order of main around distribute_images (lines 702-714) -/

/-- What `main` does between segmentation and archive building. -/
inductive PipelineOutcome
  | zeroDivCrash
  | terminalEmptyReport
  | proceeds (sc : List (Nat × Slide))
deriving DecidableEq

/-- `main` calls `distribute_images` (line 705) before the
`total_slides == 0` check (line 712). -/
def mainAfterSegment (slides : List (Nat × Slide)) (imageCount : Nat) :
    PipelineOutcome :=
  match distribute_images slides imageCount with
  | none => PipelineOutcome.zeroDivCrash
  | some sc =>
    if sc.length = 0 then PipelineOutcome.terminalEmptyReport
    else PipelineOutcome.proceeds sc

/-! ## Concrete inputs used in the theorems below -/

/-- The text-file scenario input of the specification. -/
def c5Input : List Char :=
  "Overview:\nIntro line.\n\nDetails:\nMore text here that is long enough.".toList

/-- A single fragment that is not title-like: two words, one capitalized. -/
def c4Input : List Char := "Hello money".toList

/-- A byte buffer with two back-to-back PNG signatures sharing one IEND
marker. -/
def c6Input : List Nat := pngHeader ++ pngHeader ++ iendMarker

/-- A slide group with no title, body or images. -/
def emptySlide : Slide := ⟨[], [], []⟩

/-! # Theorems -/

/-- C5 (counterexample): on the scenario input with maxSlides = 10, the
pipeline does NOT return groups titled "Overview:" and "Details:" with one
body fragment each.  The blank-line split keeps "Overview:" and "Intro line."
in a single paragraph, and the segmenter's fallback path then makes each whole
paragraph a title with an empty body. -/
theorem c5_counterexample :
    ¬ ((organize_text_into_slides (load_extracted_text_file c5Input) 10).map
        (fun p => (p.2.title, p.2.content))
      = [("Overview:".toList, ["Intro line.".toList]),
         ("Details:".toList, ["More text here that is long enough.".toList])]) := by
  decide

/-- C5 (amended): the scenario input with maxSlides = 10 yields exactly 2
slide groups, numbered 1 and 2, whose titles are the two whole blank-line
separated paragraphs ("Overview:\nIntro line." and
"Details:\nMore text here that is long enough.") and whose bodies are empty. -/
theorem c5_amended_scenario :
    organize_text_into_slides (load_extracted_text_file c5Input) 10
      = [(1, ⟨"Overview:\nIntro line.".toList, [], []⟩),
         (2, ⟨"Details:\nMore text here that is long enough.".toList, [], []⟩)] := by
  decide

/-- C4 (counterexample): on input ["Hello money"] with maxSlides = 10 the
fallback path returns a slide group with empty body whose title is the
fragment itself, not the synthesized placeholder — refuting the claim that
every empty-body group carries a placeholder title. -/
theorem c4_counterexample :
    ¬ (∀ g ∈ organize_text_into_slides [c4Input] 10,
        g.2.content = [] → g.2.title = slideLabel g.1) := by
  decide

/-- C6 (counterexample): the PNG scan of a buffer holding two back-to-back
PNG signatures followed by one IEND marker yields the candidates (0, 24) and
(8, 24), whose byte ranges overlap — the loop advances the search origin by
one byte past the previous match's start, not to its end. -/
theorem c6_counterexample_overlap :
    pngScan c6Input = [(0, 24), (8, 24)]
    ∧ succNonOverlap (pngScan c6Input) = false := by
  decide

/-- C7 (counterexample): a 21-character title of ampersands does not exceed
the 100-character limit, yet it is truncated (the length check runs on the
escaped text, 105 characters here), and the truncation cuts an escape
sequence so the embedded text ends with a bare "&a" before the ellipsis. -/
theorem c7_counterexample :
    (List.replicate 21 '&').length ≤ 100
    ∧ sanitizeTitle (List.replicate 21 '&') ≠ escapeText (List.replicate 21 '&')
    ∧ (sanitizeTitle (List.replicate 21 '&')).drop 95 = '&' :: 'a' :: ellipsis := by
  decide

/-- C9 (counterexample): with slides numbered 1 and 2 and one carved image,
the distributor appends image_1.png to the slide at sorted index 0 (slide 1),
while the claimed rule "image i goes to the slide at index i mod slideCount"
would place image 1 at index 1 mod 2 = 1 (slide 2), which receives nothing. -/
theorem c9_counterexample :
    distribute_images [(1, emptySlide), (2, emptySlide)] 1
      = some [(1, ⟨[], [], [imageName 1]⟩), (2, emptySlide)]
    ∧ ([(1, ⟨[], [], [imageName 1]⟩), (2, emptySlide)].getD (1 % 2)
        (0, emptySlide)).2.images = [] := by
  decide

/-- C8 (counterexample): in a 2-archive batch where building or serializing
the first archive raises an exception, the second archive is never attempted
— refuting "the failure of archive i never prevents archives i+1..N from
being attempted". -/
theorem c8_counterexample_abort :
    (runBatch 2 (fun i => if i = 0 then SerOutcome.raises else SerOutcome.ok)
      true).attempted = [0]
    ∧ 1 ∉ (runBatch 2 (fun i => if i = 0 then SerOutcome.raises else SerOutcome.ok)
      true).attempted := by
  decide

/-- C10: when segmentation returns zero slide groups and at least one image
was carved, `distribute_images` evaluates `i % 0` and the pipeline crashes
with an uncaught ZeroDivisionError before the zero-slide check; the distinct
terminal-empty report is reached only when the image count is also zero. -/
theorem c10_crash_before_empty_check (c : Nat) (hc : 1 ≤ c) :
    mainAfterSegment [] c = PipelineOutcome.zeroDivCrash
    ∧ mainAfterSegment [] 0 = PipelineOutcome.terminalEmptyReport := by
  have h : c ≠ 0 := by omega
  constructor
  · simp [mainAfterSegment, distribute_images, h]
  · decide

/-- C10 witness at c = 1. -/
theorem c10_witness :
    mainAfterSegment [] 1 = PipelineOutcome.zeroDivCrash :=
  (c10_crash_before_empty_check 1 (by decide)).1

/-! ## Ceiling-division lemmas for the splitter -/

theorem ceilDiv_pos (T d : Nat) (hT : 1 ≤ T) (hd : 1 ≤ d) : 1 ≤ ceilDiv T d := by
  unfold ceilDiv
  rw [Nat.one_le_div_iff (by omega)]
  omega

theorem le_mul_ceilDiv (T d : Nat) (hT : 1 ≤ T) (hd : 1 ≤ d) :
    T ≤ ceilDiv T d * d := by
  have h := Nat.div_add_mod (T + d - 1) d
  have h2 : (T + d - 1) % d < d := Nat.mod_lt _ (by omega)
  unfold ceilDiv
  rw [Nat.mul_comm]
  generalize hr : (T + d - 1) % d = r at h h2
  generalize hp : d * ((T + d - 1) / d) = P at h ⊢
  omega

theorem ceilDiv_ceilDiv_le (T d : Nat) (hT : 1 ≤ T) (hd : 1 ≤ d) :
    ceilDiv T (ceilDiv T d) ≤ d := by
  have hsp : 1 ≤ ceilDiv T d := ceilDiv_pos T d hT hd
  have hle : T ≤ ceilDiv T d * d := le_mul_ceilDiv T d hT hd
  set sp := ceilDiv T d with hspdef
  have hlt : (T + sp - 1) / sp < d + 1 := by
    rw [Nat.div_lt_iff_lt_mul (by omega : 0 < sp)]
    have h2 : (d + 1) * sp = sp * d + sp := by ring
    rw [h2]
    generalize hp : sp * d = P at hle ⊢
    omega
  unfold ceilDiv
  exact Nat.lt_succ_iff.mp hlt

theorem ceilDiv_le_self (T sp : Nat) (hT : 1 ≤ T) (hsp : 1 ≤ sp) :
    ceilDiv T sp ≤ T := by
  have hlt : (T + sp - 1) / sp < T + 1 := by
    rw [Nat.div_lt_iff_lt_mul (by omega : 0 < sp)]
    have h3 : T * 1 ≤ T * sp := Nat.mul_le_mul_left T hsp
    rw [Nat.mul_one] at h3
    have h2 : (T + 1) * sp = T * sp + sp := by ring
    rw [h2]
    generalize hp : T * sp = P at h3 ⊢
    omega
  unfold ceilDiv
  exact Nat.lt_succ_iff.mp hlt

theorem chunkSizes_sum (T sp : Nat) : ∀ n, (chunkSizes T sp n).sum = min (n * sp) T := by
  intro n
  induction n with
  | zero => simp [chunkSizes]
  | succ n ih =>
    have hsplit : chunkSizes T sp (n + 1)
        = chunkSizes T sp n ++ [min ((n + 1) * sp) T - n * sp] := by
      simp [chunkSizes, List.range_succ]
    rw [hsplit, List.sum_append, ih]
    have h2 : (n + 1) * sp = n * sp + sp := by ring
    simp only [List.sum_cons, List.sum_nil, h2]
    generalize n * sp = A
    omega

theorem chunk_pos (T sp i : Nat) (hsp : 1 ≤ sp) (hi : i < ceilDiv T sp) :
    0 < min ((i + 1) * sp) T - i * sp := by
  unfold ceilDiv at hi
  have h2 : (i + 1) * sp ≤ ((T + sp - 1) / sp) * sp :=
    Nat.mul_le_mul_right sp hi
  have h3 : ((T + sp - 1) / sp) * sp ≤ T + sp - 1 := Nat.div_mul_le_self _ _
  have h4 : (i + 1) * sp = i * sp + sp := by ring
  rw [h4] at h2 ⊢
  generalize hB : ((T + sp - 1) / sp) * sp = B at h2 h3
  generalize hA : i * sp = A at h2 ⊢
  omega

theorem partLen (l : List Nat) (sp i : Nat) :
    ((l.drop (i * sp)).take (min ((i + 1) * sp) l.length - i * sp)).length
      = min ((i + 1) * sp) l.length - i * sp := by
  rw [List.length_take, List.length_drop]
  have h4 : (i + 1) * sp = i * sp + sp := by ring
  rw [h4]
  generalize i * sp = A
  omega

theorem filePartition_len (l : List Nat) (sp n : Nat) :
    (filePartition l sp n).map List.length = chunkSizes l.length sp n := by
  unfold filePartition chunkSizes
  rw [List.map_map]
  apply List.map_congr_left
  intro i _
  exact partLen l sp i

/-- C2: for every totalSlides T ≥ 1, per-file cap S ≥ 1 and file cap F ≥ 1,
the splitter's computation (slidesPerFile = min(S,T); desiredFiles =
min(F, ceil(T/slidesPerFile)); slidesPerFile = ceil(T/desiredFiles);
N = ceil(T/slidesPerFile)) yields N ≤ F and N ≤ T archives whose slide counts
are all nonzero (so all N are emitted) and sum to exactly T; in particular
T=37, S=15, F=10 gives slidesPerFile 13 and parts of sizes 13, 13, 11. -/
theorem c2_splitter_invariant (T S F : Nat) (hT : 1 ≤ T) (hS : 1 ≤ S)
    (hF : 1 ≤ F) (l : List Nat) (hl : l.length = T) :
    (splitPlan T S F).2 ≤ F
    ∧ (splitPlan T S F).2 ≤ T
    ∧ ((filePartition l (splitPlan T S F).1 (splitPlan T S F).2).map
        List.length).sum = T
    ∧ (∀ part ∈ filePartition l (splitPlan T S F).1 (splitPlan T S F).2,
        part.length ≠ 0)
    ∧ splitPlan 37 15 10 = (13, 3)
    ∧ (filePartition (List.range' 1 37) 13 3).map List.length = [13, 13, 11] := by
  have hsp0 : 1 ≤ min S T := by omega
  have hcd : 1 ≤ ceilDiv T (min S T) := ceilDiv_pos _ _ hT hsp0
  have hdf : 1 ≤ min F (ceilDiv T (min S T)) := by omega
  have hsp : 1 ≤ ceilDiv T (min F (ceilDiv T (min S T))) := ceilDiv_pos _ _ hT hdf
  have hfst : (splitPlan T S F).1 = ceilDiv T (min F (ceilDiv T (min S T))) := rfl
  have hsnd : (splitPlan T S F).2
      = ceilDiv T (ceilDiv T (min F (ceilDiv T (min S T)))) := rfl
  rw [hfst, hsnd]
  refine ⟨?_, ?_, ?_, ?_, by decide, by decide⟩
  · exact le_trans (ceilDiv_ceilDiv_le T _ hT hdf) (Nat.min_le_left _ _)
  · exact ceilDiv_le_self T _ hT hsp
  · rw [filePartition_len, hl, chunkSizes_sum]
    exact Nat.min_eq_right (le_mul_ceilDiv T _ hT hsp)
  · intro part hpart
    unfold filePartition at hpart
    obtain ⟨i, hi, rfl⟩ := List.mem_map.mp hpart
    rw [partLen, hl]
    have := chunk_pos T _ i hsp (List.mem_range.mp hi)
    omega

/-- C2 witness: the invariant instantiated at T=37, S=15, F=10 on the slide
numbers 1..37. -/
theorem c2_witness :
    (splitPlan 37 15 10).2 ≤ 10
    ∧ ((filePartition (List.range' 1 37) (splitPlan 37 15 10).1
        (splitPlan 37 15 10).2).map List.length).sum = 37 := by
  have h := c2_splitter_invariant 37 15 10 (by decide) (by decide) (by decide)
    (List.range' 1 37) (by decide)
  exact ⟨h.1, h.2.2.1⟩

/-! ## Carver scan ordering (C6) -/

theorem findFromAux_le (pat data : List Nat) :
    ∀ fuel p r, findFromAux pat data fuel p = some r → p ≤ r := by
  intro fuel
  induction fuel with
  | zero => intro p r h; simp [findFromAux] at h
  | succ fuel ih =>
    intro p r h
    unfold findFromAux at h
    split at h
    · injection h with h2; omega
    · exact le_trans (by omega) (ih (p + 1) r h)

theorem findFrom_le (pat data : List Nat) (start r : Nat)
    (h : findFrom pat data start = some r) : start ≤ r :=
  findFromAux_le pat data _ start r h

theorem scanAux_mem_le (hdr mk data : List Nat) :
    ∀ fuel pos c, c ∈ scanAux hdr mk data fuel pos → pos ≤ c.1 := by
  intro fuel
  induction fuel with
  | zero => intro pos c h; simp [scanAux] at h
  | succ fuel ih =>
    intro pos c h
    unfold scanAux at h
    cases hh : findFrom hdr data pos with
    | none => rw [hh] at h; simp at h
    | some s =>
      rw [hh] at h
      have h2 : c ∈ (match findFrom mk data s with
          | none => scanAux hdr mk data fuel (s + 1)
          | some e => (s, e + mk.length) :: scanAux hdr mk data fuel (s + 1)) := h
      have hs : pos ≤ s := findFrom_le _ _ _ _ hh
      cases hm : findFrom mk data s with
      | none =>
        rw [hm] at h2
        exact le_trans (by omega) (ih (s + 1) c h2)
      | some e =>
        rw [hm] at h2
        rcases List.mem_cons.mp h2 with h1 | h3
        · subst h1; exact hs
        · exact le_trans (by omega) (ih (s + 1) c h3)

theorem scanAux_sorted (hdr mk data : List Nat) :
    ∀ fuel pos,
      List.Pairwise (fun a b => a.1 < b.1) (scanAux hdr mk data fuel pos) := by
  intro fuel
  induction fuel with
  | zero => intro pos; simp [scanAux]
  | succ fuel ih =>
    intro pos
    unfold scanAux
    cases hh : findFrom hdr data pos with
    | none => simp
    | some s =>
      show List.Pairwise _ (match findFrom mk data s with
        | none => scanAux hdr mk data fuel (s + 1)
        | some e => (s, e + mk.length) :: scanAux hdr mk data fuel (s + 1))
      cases hm : findFrom mk data s with
      | none => exact ih (s + 1)
      | some e =>
        show List.Pairwise _ ((s, e + mk.length) :: scanAux hdr mk data fuel (s + 1))
        refine List.Pairwise.cons ?_ (ih (s + 1))
        intro b hb
        have := scanAux_mem_le hdr mk data fuel (s + 1) b hb
        show s < b.1
        omega

/-- C6 (amended): the carver's scan restarts the next header search one byte
past the previous match's start (not at its end), so for every byte buffer the
candidate start offsets are strictly increasing — candidates come leftmost
first — but successive candidate byte ranges may overlap. -/
theorem c6_amended_leftmost (data : List Nat) :
    List.Pairwise (fun a b => a.1 < b.1) (pngScan data)
    ∧ List.Pairwise (fun a b => a.1 < b.1) (jpgScan data) :=
  ⟨scanAux_sorted _ _ _ _ _, scanAux_sorted _ _ _ _ _⟩

/-! ## Segmenter key structure (C3, C4) -/

theorem take_range' : ∀ (n s m : Nat),
    (List.range' s n).take m = List.range' s (min m n) := by
  intro n
  induction n with
  | zero => intro s m; simp
  | succ n ih =>
    intro s m
    cases m with
    | zero => simp
    | succ m =>
      rw [List.range'_succ, List.take_succ_cons]
      rw [ih (s + 1) m]
      have hmin : min (m + 1) (n + 1) = min m n + 1 := by omega
      rw [hmin, List.range'_succ]

theorem fallbackBuild_keys : ∀ (chunks : List (List (List Char))) (cur : Nat),
    (fallbackBuild cur chunks).map Prod.fst
      = List.range' cur (fallbackBuild cur chunks).length := by
  intro chunks
  induction chunks with
  | nil => intro cur; simp [fallbackBuild]
  | cons chunk rest ih =>
    intro cur
    simp only [fallbackBuild]
    split
    · exact ih cur
    · simp only [List.map_cons, List.length_cons]
      rw [ih (cur + 1), List.range'_succ]

theorem primaryBuild_keys (paras : List (List Char)) :
    ∀ (idxs : List Nat) (cur : Nat),
      (primaryBuild paras cur idxs).map Prod.fst
        = List.range' cur (primaryBuild paras cur idxs).length := by
  intro idxs
  induction idxs with
  | nil => intro cur; simp [primaryBuild]
  | cons s rest ih =>
    intro cur
    simp only [primaryBuild]
    split
    · exact ih cur
    · simp only [List.map_cons, List.length_cons]
      rw [ih (cur + 1), List.range'_succ]

theorem buildStage_keys (paras : List (List Char)) (maxS : Nat) :
    (buildStage paras maxS).map Prod.fst
      = List.range' 1 (buildStage paras maxS).length := by
  unfold buildStage
  split
  · exact fallbackBuild_keys _ 1
  · exact primaryBuild_keys _ _ 1

theorem lookup_cons_ne {k₀ k : Nat} (s₀ : Slide) (m : List (Nat × Slide))
    (h : k ≠ k₀) : List.lookup k ((k₀, s₀) :: m) = List.lookup k m := by
  simp [List.lookup, beq_false_of_ne h]

theorem filterMap_lookup_take :
    ∀ (m : List (Nat × Slide)) (n : Nat), (m.map Prod.fst).Nodup →
      ((m.map Prod.fst).take n).filterMap
        (fun k => (List.lookup k m).map (fun s => (k, s))) = m.take n := by
  intro m
  induction m with
  | nil => intro n _; simp
  | cons p rest ih =>
    intro n hnd
    obtain ⟨k₀, s₀⟩ := p
    cases n with
    | zero => simp
    | succ n =>
      simp only [List.map_cons, List.take_succ_cons]
      rw [List.filterMap_cons]
      have hk : List.lookup k₀ ((k₀, s₀) :: rest) = some s₀ := by
        simp [List.lookup]
      rw [hk]
      simp only [Option.map_some']
      have hnotin : k₀ ∉ rest.map Prod.fst := (List.nodup_cons.mp hnd).1
      have hcongr : ((rest.map Prod.fst).take n).filterMap
            (fun k => (List.lookup k ((k₀, s₀) :: rest)).map (fun s => (k, s)))
          = ((rest.map Prod.fst).take n).filterMap
            (fun k => (List.lookup k rest).map (fun s => (k, s))) := by
        apply List.filterMap_congr
        intro k hkmem
        have hkr : k ∈ rest.map Prod.fst :=
          List.take_subset _ _ hkmem
        have hne : k ≠ k₀ := by
          intro he; exact hnotin (he ▸ hkr)
        rw [lookup_cons_ne s₀ rest hne]
      rw [hcongr, ih n (List.nodup_cons.mp hnd).2]

theorem capSlides_eq_take (m : List (Nat × Slide)) (maxS : Nat)
    (h : List.Pairwise (· < ·) (m.map Prod.fst)) :
    capSlides m maxS = m.take maxS := by
  unfold capSlides
  split
  · have hsorted : List.Sorted (· ≤ ·) (m.map Prod.fst) :=
      h.imp (fun hab => Nat.le_of_lt hab)
    rw [hsorted.insertionSort_eq]
    exact filterMap_lookup_take m maxS (h.imp (fun hab => Nat.ne_of_lt hab))
  · exact (List.take_of_length_le (by omega)).symm

/-- C3: for every input fragment sequence and every maxSlides ≥ 1, the slide
numbers returned by the segmenter are exactly the dense range 1..K for some
K ≤ maxSlides, with no gaps and no duplicates. -/
theorem c3_segmenter_dense (paragraphs : List (List Char)) (maxSlides : Nat)
    (_h : 1 ≤ maxSlides) :
    (organize_text_into_slides paragraphs maxSlides).map Prod.fst
      = List.range' 1 (organize_text_into_slides paragraphs maxSlides).length
    ∧ (organize_text_into_slides paragraphs maxSlides).length ≤ maxSlides := by
  have hkeys :=
    buildStage_keys ((filterParas paragraphs []).take (maxSlides * 8)) maxSlides
  set b := buildStage ((filterParas paragraphs []).take (maxSlides * 8)) maxSlides
    with hb
  have hpw : List.Pairwise (· < ·) (b.map Prod.fst) := by
    rw [hkeys]; exact List.pairwise_lt_range' _ _
  have horg : organize_text_into_slides paragraphs maxSlides = b.take maxSlides :=
    capSlides_eq_take b maxSlides hpw
  refine ⟨?_, ?_⟩
  · rw [horg, List.map_take, hkeys, take_range', List.length_take]
  · rw [horg, List.length_take]
    omega

/-- C3 witness at the one-fragment input with maxSlides = 10. -/
theorem c3_witness :
    (organize_text_into_slides [c4Input] 10).map Prod.fst
      = List.range' 1 (organize_text_into_slides [c4Input] 10).length
    ∧ (organize_text_into_slides [c4Input] 10).length ≤ 10 :=
  c3_segmenter_dense [c4Input] 10 (by decide)

theorem primaryBuild_content_ne (paras : List (List Char)) :
    ∀ (idxs : List Nat) (cur : Nat) (g : Nat × Slide),
      g ∈ primaryBuild paras cur idxs → g.2.content ≠ [] := by
  intro idxs
  induction idxs with
  | nil => intro cur g hg; simp [primaryBuild] at hg
  | cons s rest ih =>
    intro cur g hg
    unfold primaryBuild at hg
    split at hg
    · exact ih cur g hg
    · rcases List.mem_cons.mp hg with h1 | h2
      · subst h1
        simpa using by assumption
      · exact ih (cur + 1) g h2

theorem fallbackBuild_empty_title :
    ∀ (chunks : List (List (List Char))) (cur : Nat) (g : Nat × Slide),
      g ∈ fallbackBuild cur chunks → g.2.content = [] →
        g.2.title ≠ slideLabel g.1 := by
  intro chunks
  induction chunks with
  | nil => intro cur g hg; simp [fallbackBuild] at hg
  | cons chunk rest ih =>
    intro cur g hg hc
    unfold fallbackBuild at hg
    split at hg
    · exact ih cur g hg hc
    · rcases List.mem_cons.mp hg with h1 | h2
      · subst h1
        intro habs
        rename_i hguard
        exact hguard ⟨hc, habs⟩
      · exact ih (cur + 1) g h2 hc

/-- C4 (amended): every slide group returned by the segmenter that has an
empty body has a NON-placeholder title — its title differs from the
synthesized `Slide <n>` label for its own number.  The title-boundary path
never returns empty-body groups, and the fallback path drops an empty-body
chunk only when its title is the synthesized label; an empty-body chunk whose
first fragment became the title is retained. -/
theorem c4_amended (paragraphs : List (List Char)) (maxSlides : Nat)
    (g : Nat × Slide) (hg : g ∈ organize_text_into_slides paragraphs maxSlides)
    (hc : g.2.content = []) : g.2.title ≠ slideLabel g.1 := by
  have hkeys :=
    buildStage_keys ((filterParas paragraphs []).take (maxSlides * 8)) maxSlides
  set b := buildStage ((filterParas paragraphs []).take (maxSlides * 8)) maxSlides
    with hb
  have hpw : List.Pairwise (· < ·) (b.map Prod.fst) := by
    rw [hkeys]; exact List.pairwise_lt_range' _ _
  have horg : organize_text_into_slides paragraphs maxSlides = b.take maxSlides :=
    capSlides_eq_take b maxSlides hpw
  rw [horg] at hg
  have hgb : g ∈ b := List.take_subset _ _ hg
  rw [hb] at hgb
  unfold buildStage at hgb
  split at hgb
  · exact fallbackBuild_empty_title _ 1 g hgb hc
  · exact absurd hc (primaryBuild_content_ne _ _ 1 g hgb)

/-- C4 witness: the retained empty-body group of the counterexample input
indeed has a non-placeholder title. -/
theorem c4_witness : c4Input ≠ slideLabel 1 :=
  c4_amended [c4Input] 10 (1, ⟨c4Input, [], []⟩) (by decide) (by decide)

/-! ## Escaping and truncation (C7) -/

theorem escape_perChar (c : Char) :
    ((repAmp c).flatMap repLt).flatMap repGt
      = (if c = '&' then ampEsc
         else if c = '<' then ltEsc
         else if c = '>' then gtEsc
         else [c]) := by
  by_cases h1 : c = '&'
  · subst h1; decide
  · by_cases h2 : c = '<'
    · subst h2; decide
    · by_cases h3 : c = '>'
      · subst h3; decide
      · simp [repAmp, repLt, repGt, h1, h2, h3]

theorem escapeText_eq_spec (s : List Char) : escapeText s = specEscape s := by
  induction s with
  | nil => rfl
  | cons c s ih =>
    unfold escapeText specEscape
    rw [List.flatMap_cons, List.flatMap_append, List.flatMap_append,
      List.flatMap_cons]
    unfold escapeText specEscape at ih
    rw [ih, escape_perChar]

/-- C7 (amended): titles and body fragments are escaped character-wise
(`&` to `&amp;`, `<` to `&lt;`, `>` to `&gt;`) before embedding, but the
100- and 1000-character truncation limits are applied to the ESCAPED text,
not the original: when the escaped text exceeds the limit it is cut to
`[:97]`/`[:997]` plus an ellipsis (exactly 100/1000 characters, possibly
cutting an escape sequence so a bare `&` can appear); escaped text within the
limit is embedded unchanged. -/
theorem c7_amended_escape_truncate (t : List Char) :
    escapeText t = specEscape t
    ∧ ((escapeText t).length ≤ 100 → sanitizeTitle t = escapeText t)
    ∧ (100 < (escapeText t).length →
        sanitizeTitle t = (escapeText t).take 97 ++ ellipsis
        ∧ (sanitizeTitle t).length = 100)
    ∧ ((escapeText t).length ≤ 1000 → sanitizeBody t = escapeText t)
    ∧ (1000 < (escapeText t).length →
        sanitizeBody t = (escapeText t).take 997 ++ ellipsis
        ∧ (sanitizeBody t).length = 1000) := by
  have hell : ellipsis.length = 3 := by decide
  refine ⟨escapeText_eq_spec t, ?_, ?_, ?_, ?_⟩
  · intro h; unfold sanitizeTitle; rw [if_neg (by omega)]
  · intro h
    constructor
    · unfold sanitizeTitle; rw [if_pos h]
    · unfold sanitizeTitle
      rw [if_pos h, List.length_append, List.length_take, hell]
      omega
  · intro h; unfold sanitizeBody; rw [if_neg (by omega)]
  · intro h
    constructor
    · unfold sanitizeBody; rw [if_pos h]
    · unfold sanitizeBody
      rw [if_pos h, List.length_append, List.length_take, hell]
      omega

/-- C7 witness: a title of 101 plain characters escapes to itself, exceeds
100 characters, and is truncated to exactly 100. -/
theorem c7_witness :
    sanitizeTitle (List.replicate 101 'a')
      = (escapeText (List.replicate 101 'a')).take 97 ++ ellipsis
    ∧ (sanitizeTitle (List.replicate 101 'a')).length = 100 :=
  (c7_amended_escape_truncate (List.replicate 101 'a')).2.2.1 (by decide)

/-! ## Batch loop behaviour (C8) -/

theorem runParts_no_raise (f : Nat → SerOutcome) :
    ∀ l : List Nat, (∀ i ∈ l, f i ≠ SerOutcome.raises) →
      runParts f l
        = (l, l.filter (fun i => f i = SerOutcome.retFalse), false) := by
  intro l
  induction l with
  | nil => intro _; rfl
  | cons i rest ih =>
    intro h
    have hi := h i (List.mem_cons_self i rest)
    have hrest : ∀ j ∈ rest, f j ≠ SerOutcome.raises :=
      fun j hj => h j (List.mem_cons_of_mem i hj)
    unfold runParts
    cases hfi : f i with
    | raises => exact absurd hfi hi
    | retFalse =>
      rw [ih hrest]
      simp [List.filter_cons, hfi]
    | ok =>
      rw [ih hrest]
      simp [List.filter_cons, hfi]

/-- C8 (amended): when `create_pptx` reports an archive failure through its
return value (`False`), the loop records it and continues, so all N parts are
attempted and the loop exits normally; an exception while building or
serializing aborts the remaining parts (see the counterexample).  The
`finally` block runs on every exit path, and it removes the overall working
directory exactly when a temporary directory was in use. -/
theorem c8_amended (n : Nat) (f : Nat → SerOutcome) (temp : Bool) :
    ((∀ i, i < n → f i ≠ SerOutcome.raises) →
      (runBatch n f temp).attempted = List.range n
      ∧ (runBatch n f temp).recorded
          = (List.range n).filter (fun i => f i = SerOutcome.retFalse)
      ∧ (runBatch n f temp).exit = ExitKind.normal)
    ∧ (runBatch n f temp).finallyRan = true
    ∧ (runBatch n f temp).dirRemoved = temp := by
  refine ⟨?_, rfl, rfl⟩
  intro h
  have h2 : ∀ i ∈ List.range n, f i ≠ SerOutcome.raises := by
    intro i hi; exact h i (List.mem_range.mp hi)
  unfold runBatch
  rw [runParts_no_raise f (List.range n) h2]
  exact ⟨rfl, rfl, rfl⟩

/-- C8 witness: a 2-archive batch in which both serializations report failure
by returning False still attempts and records both parts and exits
normally. -/
theorem c8_witness :
    (runBatch 2 (fun _ => SerOutcome.retFalse) true).attempted = [0, 1]
    ∧ (runBatch 2 (fun _ => SerOutcome.retFalse) true).recorded = [0, 1]
    ∧ (runBatch 2 (fun _ => SerOutcome.retFalse) true).exit = ExitKind.normal := by
  have h := (c8_amended 2 (fun _ => SerOutcome.retFalse) true).1
    (by intro i _; decide)
  refine ⟨?_, ?_, h.2.2⟩
  · rw [h.1]; decide
  · rw [h.2.1]; decide

/-! ## Relationship IDs and media presence (C1) -/

theorem slideRelEntries_fst (images : List (List Char)) :
    (slideRelEntries images).map Prod.fst = slidePicEmbeds images := by
  unfold slideRelEntries slidePicEmbeds
  rw [List.map_map]
  rfl

theorem slidePicEmbeds_nodup (images : List (List Char)) :
    (slidePicEmbeds images).Nodup := by
  unfold slidePicEmbeds
  rw [show (fun p : Nat × List Char => p.1 + 1) = (fun k => k + 1) ∘ Prod.fst
    from rfl]
  rw [← List.map_map, List.enum_map_fst]
  exact (List.nodup_range _).map (fun a b h => by omega)

theorem filter_fst_length_one {β : Type} :
    ∀ (l : List (Nat × β)) (r : Nat), (l.map Prod.fst).Nodup →
      r ∈ l.map Prod.fst →
      (l.filter (fun en => en.1 = r)).length = 1 := by
  intro l
  induction l with
  | nil => intro r _ hr; simp at hr
  | cons p rest ih =>
    intro r hnd hr
    simp only [List.map_cons, List.nodup_cons] at hnd hr
    rw [List.filter_cons]
    by_cases hp : p.1 = r
    · have hempty : rest.filter (fun en => en.1 = r) = [] := by
        rw [List.filter_eq_nil_iff]
        intro a ha
        simp only [decide_eq_true_eq]
        intro habs
        exact hnd.1 (by rw [hp]; rw [← habs]; exact List.mem_map_of_mem Prod.fst ha)
      simp [hp, hempty]
    · rcases List.mem_cons.mp hr with h1 | h2
      · exact absurd h1.symm hp
      · simp [hp]
        simpa using ih r hnd.2 h2

theorem mem_foldl_append (x : List Char) :
    ∀ (L : List Slide) (acc : List (List Char)),
      x ∈ L.foldl (fun a sl => a ++ sl.images) acc ↔
        x ∈ acc ∨ ∃ sl ∈ L, x ∈ sl.images := by
  intro L
  induction L with
  | nil => intro acc; simp
  | cons sl rest ih =>
    intro acc
    rw [List.foldl_cons, ih]
    simp [List.mem_append]
    tauto

/-- C1: in every assembled package, the rIds referenced by the `<a:blip>`
elements of a slide part are exactly the relationship IDs of that slide's
relationship part, each resolved by exactly one relationship entry; and every
image filename referenced by any slide of the package is present in the
package's media directory after assembly — copied from the media store when
present there, otherwise written as a generated placeholder under the same
filename. -/
theorem c1_refs_resolve (store : List (List Char)) (sc : List (Nat × Slide))
    (s e : Nat) :
    ∀ sl ∈ builtSlides sc s e,
      (slideRelEntries sl.images).map Prod.fst = slidePicEmbeds sl.images
      ∧ (∀ r ∈ slidePicEmbeds sl.images,
          ((slideRelEntries sl.images).filter (fun en => en.1 = r)).length = 1)
      ∧ (∀ f ∈ sl.images.take (min 4 sl.images.length),
          (f, if f ∈ store then MediaOrigin.copied else MediaOrigin.placeholder)
            ∈ assembledMedia store sc s e) := by
  intro sl hsl
  refine ⟨slideRelEntries_fst sl.images, ?_, ?_⟩
  · intro r hr
    apply filter_fst_length_one
    · rw [slideRelEntries_fst]; exact slidePicEmbeds_nodup sl.images
    · rw [slideRelEntries_fst]; exact hr
  · intro f hf
    have hf2 : f ∈ sl.images := List.take_subset _ _ hf
    have hused : f ∈ allUsedImages sc s e := by
      unfold allUsedImages
      rw [mem_foldl_append]
      exact Or.inr ⟨sl, hsl, hf2⟩
    unfold assembledMedia packageMedia
    exact List.mem_map.mpr ⟨f, List.mem_dedup.mpr hused, rfl⟩

/-! ## Image distribution (C9) -/

theorem distributeAux_succ (ns : List Nat) (c : Nat) (m : List (Nat × Slide)) :
    distributeAux ns (c + 1) m
      = appendImage (distributeAux ns c m) (ns.getD (c % ns.length) 0)
          (imageName (c + 1)) := by
  unfold distributeAux
  rw [List.range_succ, List.foldl_append]
  rfl

theorem appendImage_getElem? (m : List (Nat × Slide)) (k : Nat)
    (nm : List Char) (j : Nat) :
    (appendImage m k nm)[j]?
      = (m[j]?).map (fun p =>
          if p.1 = k then (p.1, ⟨p.2.title, p.2.content, p.2.images ++ [nm]⟩)
          else p) := by
  unfold appendImage
  exact List.getElem?_map _ m j

theorem imagesFor_zero (n j : Nat) : imagesFor 0 n j = [] := by
  simp [imagesFor]

theorem imagesFor_succ (c n j : Nat) :
    imagesFor (c + 1) n j
      = imagesFor c n j ++ (if c % n = j then [imageName (c + 1)] else []) := by
  unfold imagesFor
  rw [List.range_succ, List.filter_append, List.map_append]
  by_cases h : c % n = j
  · simp [h]
  · simp [h]

theorem nodup_getElem?_eq_iff (l : List Nat) (hnd : l.Nodup) {i j a b : Nat}
    (ha : l[i]? = some a) (hb : l[j]? = some b) : a = b ↔ i = j := by
  have hi : i < l.length := by
    by_contra h
    rw [List.getElem?_eq_none (by omega)] at ha
    exact Option.noConfusion ha
  have hj : j < l.length := by
    by_contra h
    rw [List.getElem?_eq_none (by omega)] at hb
    exact Option.noConfusion hb
  rw [List.getElem?_eq_getElem hi] at ha
  rw [List.getElem?_eq_getElem hj] at hb
  injection ha with ha2
  injection hb with hb2
  constructor
  · intro he
    exact (hnd.getElem_inj_iff).mp (by rw [ha2, hb2, he])
  · intro he
    subst he
    rw [← ha2, ← hb2]

theorem distributeAux_spec (m : List (Nat × Slide))
    (hnd : (m.map Prod.fst).Nodup) (hne : m ≠ []) :
    ∀ c j, (distributeAux (m.map Prod.fst) c m)[j]?
      = (m[j]?).map (updSlide c m.length j) := by
  intro c
  induction c with
  | zero =>
    intro j
    show m[j]? = (m[j]?).map (updSlide 0 m.length j)
    cases hm : m[j]? with
    | none => rfl
    | some p =>
      obtain ⟨k, t, ct, im⟩ := p
      simp [updSlide, imagesFor_zero]
  | succ c ih =>
    intro j
    have hn : 0 < m.length := List.length_pos.mpr hne
    have hklen : (m.map Prod.fst).length = m.length := List.length_map _ _
    have hcn : c % m.length < m.length := Nat.mod_lt _ hn
    rw [distributeAux_succ, appendImage_getElem?, ih j, hklen]
    have hkey : (m.map Prod.fst)[c % m.length]?
        = some ((m.map Prod.fst).getD (c % m.length) 0) := by
      rw [List.getD_eq_getElem?_getD,
        List.getElem?_eq_getElem (by rw [hklen]; exact hcn)]
      rfl
    cases hm : m[j]? with
    | none => rfl
    | some p =>
      have hpj : (m.map Prod.fst)[j]? = some p.1 := by
        rw [List.getElem?_map, hm]; rfl
      have hiff : p.1 = (m.map Prod.fst).getD (c % m.length) 0 ↔ j = c % m.length :=
        nodup_getElem?_eq_iff (m.map Prod.fst) hnd hpj hkey
      simp only [Option.map_some']
      by_cases hj : c % m.length = j
      · have hpk : p.1 = (m.map Prod.fst).getD (c % m.length) 0 :=
          hiff.mpr hj.symm
        rw [updSlide, updSlide, imagesFor_succ, if_pos hj]
        simp only [if_pos hpk]
        rw [List.append_assoc]
      · have hpk : p.1 ≠ (m.map Prod.fst).getD (c % m.length) 0 := by
          intro habs
          exact hj (hiff.mp habs).symm
        rw [updSlide, updSlide, imagesFor_succ, if_neg hj]
        simp only [if_neg hpk]
        rw [List.append_nil]

/-- C9 (amended): for every nonempty slide mapping with strictly ascending
keys and every image count c, the distributor succeeds and round-robins the
images over the sorted slide numbers with loop index i (0-based) going to
sorted index i mod slideCount under the PNG filename image_<i+1>.png —
equivalently, image k (1-based) goes to the slide at index (k-1) mod
slideCount, one position earlier than the claimed `i mod slideCount`; every
assigned filename is image_<k>.png regardless of the media store's actual
extension for that index. -/
theorem c9_amended_round_robin (m : List (Nat × Slide)) (c : Nat)
    (hsorted : List.Pairwise (· < ·) (m.map Prod.fst)) (hne : m ≠ []) :
    ∃ r, distribute_images m c = some r
      ∧ ∀ j, r[j]? = (m[j]?).map (updSlide c m.length j) := by
  have hnd : (m.map Prod.fst).Nodup :=
    hsorted.imp (fun h => Nat.ne_of_lt h)
  have hns : sortedKeys m = m.map Prod.fst := by
    unfold sortedKeys
    exact List.Sorted.insertionSort_eq (hsorted.imp (fun h => Nat.le_of_lt h))
  have hlen : m.length ≠ 0 := by
    intro h
    exact hne (List.length_eq_zero.mp h)
  refine ⟨distributeAux (sortedKeys m) c m, ?_, ?_⟩
  · unfold distribute_images
    rw [if_neg]
    intro habs
    exact hlen habs.2
  · rw [hns]
    exact distributeAux_spec m hnd hne c

/-- C9 witness: with slides 1 and 2 and two images, the distributor succeeds
and the entry at index 0 receives exactly the images assigned by the
(k-1) mod n rule. -/
theorem c9_witness :
    (distribute_images [(1, emptySlide), (2, emptySlide)] 2).map (fun r => r[0]?)
      = some (some (updSlide 2 2 0 (1, emptySlide))) := by
  obtain ⟨r, hr, hj⟩ := c9_amended_round_robin [(1, emptySlide), (2, emptySlide)] 2
    (by decide) (by decide)
  rw [hr]
  simp only [Option.map_some']
  rw [hj 0]
  rfl

/-- C1 witness: a package holding one slide that references image_1.png,
assembled against an empty media store, contains image_1.png as a generated
placeholder. -/
theorem c1_witness :
    (imageName 1, MediaOrigin.placeholder)
      ∈ assembledMedia [] [(1, ⟨[], [], [imageName 1]⟩)] 1 1 := by
  have h := (c1_refs_resolve [] [(1, ⟨[], [], [imageName 1]⟩)] 1 1
    ⟨[], [], [imageName 1]⟩ (by decide)).2.2 (imageName 1) (by decide)
  simpa using h

end PptxRecovery
